import Mathlib

/-!
Shallow embedding of the statistical NLP core of the SEOntology MCP server
(`src/mcp-server.ts`, class `TrulyPureNLP` plus the caller-facing boundary
function `extractQueryPureNLP`).

Modelling conventions:
  * JavaScript strings are `List Char` (abbreviated `Str`); `String.data`
    converts a Lean string literal into that representation.
  * JavaScript numbers are idealised as exact arithmetic: quantities that the
    code computes by rational operations only are `ℚ`; quantities involving
    `Math.log` / `Math.log2` are `ℝ` with `Real.log` / `Real.logb 2`.
    The IEEE-754 value `NaN` arising from `0/0` is represented by Lean's
    total division (`x / 0 = 0`); theorems about such metrics talk about the
    numerator and the (zero) denominator explicitly.
  * `Array.prototype.sort` with a numeric comparator is stable and, for the
    consistent key comparators used by the code, produces the unique stable
    descending order; it is modelled by `List.mergeSort` with the
    corresponding non-strict comparator.
  * `Math.random() > 0.7` draws are modelled by an oracle `rand : ℕ → Bool`
    consulted with a running counter, consumed exactly where the code calls
    `Math.random()` (short-circuit evaluation preserved).
  * Entity extraction (`extractEntitiesStatistically`) is a regex utility the
    specification explicitly places outside the statistical core (§6); the
    embedded analysis result omits the `entities` field.  The JSON-LD
    serialisation layer is likewise external and not embedded.
-/

/-- JavaScript strings, embedded as lists of characters. -/
abbrev Str := List Char

/-- Coerce a Lean string literal to the embedded string type. -/
def str (s : String) : Str := s.data

/-- Whitespace test backing the JavaScript regex `\s` (ASCII fragment). -/
def isWs (c : Char) : Bool := c.isWhitespace

/-- Lowercasing, modelling `String.prototype.toLowerCase` (ASCII A–Z). -/
def toLowerStr (s : Str) : Str := s.map Char.toLower

/-- Model of `String.prototype.trim`: drop whitespace from both ends. -/
def trimStr (s : Str) : Str :=
  ((s.dropWhile isWs).reverse.dropWhile isWs).reverse

/-- Auxiliary for `jsSplit`: accumulates the current field (reversed). -/
def jsSplitGo (acc : Str) : Str → List Str
  | [] => [acc.reverse]
  | c :: cs =>
    if isWs c then acc.reverse :: jsSplitGo [] (cs.dropWhile isWs)
    else jsSplitGo (c :: acc) cs
termination_by s => s.length
decreasing_by
  · simp only [List.length_cons]
    exact Nat.lt_succ_of_le (by simpa using List.IsSuffix.length_le (List.dropWhile_suffix isWs))
  · simp

/-- Model of `text.split(/\s+/)`: split on maximal whitespace runs.  As in JavaScript,
a leading (resp. trailing) whitespace run produces a leading (resp. trailing)
empty field, and splitting the empty string yields `[""]`. -/
def jsSplit (s : Str) : List Str := jsSplitGo [] s

/-- Model of `text.split(/\s+/).filter(w => w.length > 0)`: the whitespace split used
by `analyze` and `detectLanguageStatistically`, empties removed. -/
def splitWords (s : Str) : List Str := (jsSplit s).filter (fun w => !w.isEmpty)

/-- Model of `text.includes(pat)`: literal substring test. -/
def hasSub (text pat : Str) : Bool :=
  match text with
  | [] => pat.isEmpty
  | _ :: rest => pat.isPrefixOf text || hasSub rest pat

/-- Model of `countOccurrences` (line 355): number of matches of the escaped-literal
global regex, i.e. non-overlapping left-to-right occurrences of `pat`. -/
def countOcc (pat : Str) : Str → ℕ
  | [] => 0
  | c :: rest =>
    if pat.isPrefixOf (c :: rest)
    then 1 + countOcc pat (rest.drop (pat.length - 1))
    else countOcc pat rest
termination_by t => t.length
decreasing_by
  · simp only [List.length_cons, List.length_drop]
    omega
  · simp

/-- Auxiliary for `dedupFirst`, carrying the set of words already seen. -/
def dedupFirstGo (seen : List Str) : List Str → List Str
  | [] => []
  | w :: ws => if w ∈ seen then dedupFirstGo seen ws else w :: dedupFirstGo (w :: seen) ws

/-- First-occurrence deduplication, modelling iteration order of a JavaScript
`Map`/`Set` built by repeated insertion. -/
def dedupFirst (l : List Str) : List Str := dedupFirstGo [] l

/-- Model of `Set.prototype.add`: append if absent (insertion order preserved). -/
def insertIfAbsent (w : Str) (l : List Str) : List Str :=
  if w ∈ l then l else l ++ [w]

/-- Model of `Math.abs(pos1 - pos2)` for natural positions. -/
def natDist (a b : ℕ) : ℕ := max a b - min a b

/-- Minimal distance between two position lists; `none` models the JavaScript
`Infinity` left when either list is empty (lines 393–397). -/
def minPairDist (ps qs : List ℕ) : Option ℕ :=
  (ps.flatMap (fun p => qs.map (fun q => natDist p q))).min?

/-- Addition on optional naturals where `none` (Infinity) is absorbing. -/
def addInf : Option ℕ → Option ℕ → Option ℕ
  | some a, some b => some (a + b)
  | _, _ => none

/-- All unordered pairs of a list, in iteration order of the nested loops
`for i < j` (lines 387–388). -/
def pairsOf {α : Type} : List α → List (α × α)
  | [] => []
  | x :: xs => xs.map (fun y => (x, y)) ++ pairsOf xs

-- =============================================================================
-- Entropy utilities (`calculateEntropy`, `calculateBigramEntropy`, lines 123–145)
-- =============================================================================

/-- Model of `calculateEntropy` (line 123): Shannon entropy (base 2) of a list of
counts; zero counts are skipped and a zero total yields 0. -/
noncomputable def calculateEntropy (values : List ℕ) : ℝ :=
  let total : ℕ := values.foldl (· + ·) 0
  if total = 0 then 0
  else
    values.foldl
      (fun entropy val =>
        if val = 0 then entropy
        else entropy - ((val : ℝ) / total) * Real.logb 2 ((val : ℝ) / total))
      0

/-- Lowercase ASCII letter test, backing the regex `[a-z]`. -/
def isLowerAlpha (c : Char) : Bool := 'a' ≤ c && c ≤ 'z'

/-- Model of `calculateBigramEntropy` (line 134): entropy of the distribution of
adjacent two-letter (`[a-z]{2}`) character pairs. -/
noncomputable def calculateBigramEntropy (text : Str) : ℝ :=
  let bigrams : List (Char × Char) :=
    (text.zip text.tail).filter (fun p => isLowerAlpha p.1 && isLowerAlpha p.2)
  let keys := (bigrams.map (fun p => [p.1, p.2])).foldl (fun acc k => insertIfAbsent k acc) []
  calculateEntropy (keys.map (fun k => (bigrams.map (fun p => [p.1, p.2])).count k))

-- =============================================================================
-- Language profiler (`detectLanguageStatistically`, lines 54–121)
-- =============================================================================

/-- A character matching the JavaScript regex `\w` ( `[A-Za-z0-9_]` ). -/
def isWordChar (c : Char) : Bool :=
  ('a' ≤ c && c ≤ 'z') || ('A' ≤ c && c ≤ 'Z') || ('0' ≤ c && c ≤ '9') || c = '_'

/-- The vowel set of the regex on line 67 (includes the diacritic block the
source groups with vowels). -/
def isVowelChar (c : Char) : Bool :=
  c ∈ (str "aeiouàáâäèéêëìíîïòóôöùúûüçñýÿ")

/-- The diacritic set of the regexes on lines 67/74. -/
def isDiacriticChar (c : Char) : Bool :=
  c ∈ (str "àáâäèéêëìíîïòóôöùúûüçñýÿ")

/-- The consonant set of the regex on line 71 (`[bcdfghjklmnpqrstvwxyz]`). -/
def isConsonantChar (c : Char) : Bool :=
  isLowerAlpha c && !(c ∈ (str "aeiou"))

/-- Number of maximal runs of ≥ 2 consecutive characters satisfying `p`
(non-overlapping greedy matches of `[...]{2,}`). -/
def countRuns (p : Char → Bool) : Str → ℕ
  | [] => 0
  | c :: rest =>
    if p c then
      (if (rest.takeWhile p).length + 1 ≥ 2 then 1 else 0) + countRuns p (rest.dropWhile p)
    else countRuns p rest
termination_by s => s.length
decreasing_by
  · simp only [List.length_cons]
    exact Nat.lt_succ_of_le (by simpa using List.IsSuffix.length_le (List.dropWhile_suffix p))
  · simp

/-- Model of `LanguageProfile` (line 40).  Confidence and shape features are rational
in the source; the entropy-driven branch conditions live in `ℝ`. -/
structure LanguageProfile where
  language : String
  confidence : ℚ
  avgWordLength : ℚ
  vowelShare : ℚ
  consonantClusters : ℕ
deriving Repr

/-- Model of `detectLanguageStatistically` (line 54).  `vowelShare` embeds the source
field `vowelRatio`. -/
noncomputable def detectLanguageStatistically (text : Str) : LanguageProfile :=
  let cleanText : Str :=
    (toLowerStr text).map (fun c => if isWordChar c || isWs c then c else ' ')
  let words := splitWords cleanText
  if words.isEmpty then
    { language := "unknown", confidence := 0, avgWordLength := 0
      vowelShare := 0, consonantClusters := 0 }
  else
    let totalChars : ℕ := (words.map List.length).foldl (· + ·) 0
    let avgWordLength : ℚ := (totalChars : ℚ) / words.length
    let vowels : ℕ := (cleanText.filter isVowelChar).length
    let vowelShare : ℚ := (vowels : ℚ) / totalChars
    let consonantClusters : ℕ := countRuns isConsonantChar cleanText
    let diacritics : ℕ := (cleanText.filter isDiacriticChar).length
    let diacriticShare : ℚ := (diacritics : ℚ) / totalChars
    let lens := words.map List.length
    let lenKeys := lens.foldl (fun acc k => if k ∈ acc then acc else acc ++ [k]) []
    let entropy : ℝ := calculateEntropy (lenKeys.map (fun k => lens.count k))
    let lc : String × ℚ :=
      if avgWordLength > 6 ∧ (consonantClusters : ℚ) > (words.length : ℚ) * (1/10) then
        ("de", 7/10)
      else if diacriticShare > 2/100 ∧ vowelShare > 4/10 then
        (if avgWordLength < 11/2 then ("es", 6/10) else ("fr", 6/10))
      else if diacriticShare > 1/100 ∧ entropy > 2 then ("it", 5/10)
      else ("en", 3/10)
    let bigramEntropy := calculateBigramEntropy cleanText
    let confidence : ℚ := if bigramEntropy > 4 then min (9/10) (lc.2 + 2/10) else lc.2
    { language := lc.1, confidence := confidence, avgWordLength := avgWordLength
      vowelShare := vowelShare, consonantClusters := consonantClusters }

-- =============================================================================
-- Stop-word inducer (`identifyStopWordsStatistically`, `approximateSentences`,
-- lines 151–205)
-- =============================================================================

/-- Model of `approximateSentences` (line 187), with the `Math.random() > 0.7` draws
replaced by an oracle `rand` consulted at a running counter `k`.  The draw is
consumed only when the current sentence has reached 10 words, mirroring the
short-circuit `currentSentence.length >= 10 && Math.random() > 0.7`. -/
def approxGo (rand : ℕ → Bool) :
    List Str → List (List Str) → List Str → ℕ → List (List Str) × ℕ
  | [], done, cur, k => (if cur.isEmpty then done else done ++ [cur], k)
  | w :: ws, done, cur, k =>
    let cur' := cur ++ [w]
    if cur'.length ≥ 10 then
      if rand k then approxGo rand ws (done ++ [cur']) [] (k + 1)
      else approxGo rand ws done cur' (k + 1)
    else approxGo rand ws done cur' k

/-- Model of `approximateSentences` applied to a word list with stream counter `k`. -/
def approximateSentences (rand : ℕ → Bool) (words : List Str) (k : ℕ) :
    List (List Str) × ℕ :=
  approxGo rand words [] [] k

/-- Body of the per-word loop of `identifyStopWordsStatistically`
(lines 165–182), threading the stop-word set and the random-stream counter.
Each iteration re-approximates sentences, consuming fresh draws, exactly as
the source calls `this.approximateSentences(words)` inside the loop. -/
def stopWordStep (rand : ℕ → Bool) (words : List Str) (totalWords : ℕ)
    (w : Str) (st : List Str × ℕ) : List Str × ℕ :=
  let freq := words.count w
  let relativeFreq : ℚ := (freq : ℚ) / totalWords
  let stops1 :=
    if relativeFreq > 1/100 ∧ w.length ≤ 4 then insertIfAbsent w st.1 else st.1
  let sk := approximateSentences rand words st.2
  let sentences := sk.1
  let sentenceAppearance := (sentences.filter (fun s => w ∈ s)).length
  let stops2 :=
    if (sentenceAppearance : ℚ) / (sentences.length : ℚ) > 1/5 ∧ w.length ≤ 6 then
      insertIfAbsent w stops1
    else stops1
  (stops2, sk.2)

/-- Model of `identifyStopWordsStatistically` (line 151): iterate over the distinct
words in first-occurrence order (a JavaScript `Map`'s iteration order). -/
def identifyStopWordsStatistically (rand : ℕ → Bool) (words : List Str) : List Str :=
  ((dedupFirst words).foldl
    (fun st w => stopWordStep rand words words.length w st) ([], 0)).1

-- =============================================================================
-- Term weighter (`calculateTFIDF`, `classifySemanticRole`,
-- `calculatePositionalEntropy`, lines 211–299)
-- =============================================================================

/-- The semantic-role tag of a `Token` (line 22). -/
inductive Role where
  | content
  | functionWord
  | entity
  | modifier
deriving DecidableEq, Repr

/-- Render a `Role` as the string literal the source uses; `functionWord`
embeds the source tag `'function'`. -/
def roleToString : Role → String
  | .content => "content"
  | .functionWord => "function"
  | .entity => "entity"
  | .modifier => "modifier"

/-- Model of `Token` (line 15). -/
structure Token where
  word : Str
  frequency : ℕ
  positions : List ℕ
  tfIdf : ℝ
  entropy : ℝ
  contextDiversity : ℚ
  semanticRole : Role

/-- Model of `classifySemanticRole` (line 279): purely threshold-driven role tagging,
first match wins. -/
noncomputable def classifySemanticRole (_word : Str) (freq : ℕ) (tfIdf : ℝ)
    (contextDiversity : ℚ) : Role :=
  if tfIdf > 1/100 ∧ freq < 5 ∧ contextDiversity < 1/2 then .entity
  else if tfIdf > 5/1000 ∧ freq > 2 then .content
  else if contextDiversity > 7/10 ∧ freq > 1 ∧ freq < 10 then .modifier
  else .functionWord

/-- Model of `calculatePositionalEntropy` (line 265): bucket the positions into 10
equal-width buckets over the filtered sequence and take the entropy of the
bucket counts.  `Math.floor(pos / bucketSize)` is `⌊pos · 10 / total⌋`,
clamped to bucket 9. -/
noncomputable def calculatePositionalEntropy (positions : List ℕ) (totalLength : ℕ) : ℝ :=
  let bucketOf : ℕ → ℕ := fun pos =>
    min (Int.toNat ⌊(pos : ℚ) / ((totalLength : ℚ) / 10)⌋) 9
  let buckets := (List.range 10).map (fun b => (positions.filter (fun p => bucketOf p = b)).length)
  calculateEntropy buckets

/-- The stop-word / single-character filter opening `calculateTFIDF`
(line 212): `words.filter(word => !stopWords.has(word) && word.length > 1)`. -/
def filteredWords (words stopWords : List Str) : List Str :=
  words.filter (fun w => !(stopWords.contains w) && w.length > 1)

/-- The `±2`-word context windows of `calculateTFIDF` (lines 236–240): for a
position `pos`, `contentWords.slice(max 0 (pos-2), min len (pos+3))` joined
with single spaces. -/
def contextAt (contentWords : List Str) (pos : ℕ) : Str :=
  let start := pos - 2
  let stop := min contentWords.length (pos + 3)
  List.intercalate [' '] ((contentWords.drop start).take (stop - start))

/-- Construct the `Token` of one distinct retained word (the body of the
`for (const [word, freq] of wordFreq.entries())` loop, lines 227–260). -/
noncomputable def mkToken (contentWords : List Str) (w : Str) : Token :=
  let freq := contentWords.count w
  let totalWords := contentWords.length
  let positions := ((contentWords.enum).filter (fun p => p.2 = w)).map (fun p => p.1)
  let tf : ℝ := (freq : ℝ) / totalWords
  let idf : ℝ := Real.log ((totalWords : ℝ) / freq)
  let tfIdf := tf * idf
  let contexts := positions.map (contextAt contentWords)
  let uniqueContexts := dedupFirst contexts
  let contextDiversity : ℚ := (uniqueContexts.length : ℚ) / contexts.length
  { word := w
    frequency := freq
    positions := positions
    tfIdf := tfIdf
    entropy := calculatePositionalEntropy positions totalWords
    contextDiversity := contextDiversity
    semanticRole := classifySemanticRole w freq tfIdf contextDiversity }

/-- Model of `calculateTFIDF` (line 211): one token per distinct retained word (in
first-occurrence order, a `Map`'s iteration order), sorted descending by
`tfIdf` (`tokens.sort((a, b) => b.tfIdf - a.tfIdf)`, stable). -/
noncomputable def calculateTFIDF (words stopWords : List Str) : List Token :=
  let contentWords := filteredWords words stopWords
  ((dedupFirst contentWords).map (mkToken contentWords)).mergeSort
    (fun a b => decide (b.tfIdf ≤ a.tfIdf))

-- =============================================================================
-- Phrase extractor (`extractNGrams`, `findPositions`, `calculateCoherence`,
-- `calculateInformationValue`, lines 305–427)
-- =============================================================================

/-- Model of `NGram` (line 25): coherence is a rational inverse-distance score. -/
structure NGram where
  phrase : Str
  frequency : ℕ
  coherence : ℚ
  informationValue : ℝ
  positions : List ℕ

/-- Space-joining of word lists, modelling template literals such as
`` `${words[i]} ${words[i + 1]}` `` (lines 311/331). -/
def joinWords : List Str → Str
  | [] => []
  | [w] => w
  | w :: ws => w ++ ' ' :: joinWords ws

/-- Model of `findPositions` (line 360): word-level positions of the phrase in the
raw (`split(/\s+/)`, unfiltered) word sequence of the text. -/
def findPositions (text phrase : Str) : List ℕ :=
  let words := jsSplit text
  let phraseWords := jsSplit phrase
  (List.range (words.length + 1 - phraseWords.length)).filter
    (fun i => (words.drop i).take phraseWords.length = phraseWords)

/-- Model of `calculateCoherence` (line 375): average over word pairs of the minimal
absolute distance between their recorded positions; coherence is
`max 0 (1 - avg/10)`, and an `Infinity` distance (empty positions) flushes to
coherence 0 (`max(0, -Infinity)`). -/
def calculateCoherence (phraseWords : List Str) (tokens : List Token) : ℚ :=
  let wordTokens := phraseWords.filterMap (fun w => tokens.find? (fun t => t.word = w))
  if wordTokens.length ≠ phraseWords.length then 0
  else
    let pairs := pairsOf wordTokens
    let totalDistance :=
      pairs.foldl (fun acc p => addInf acc (minPairDist p.1.positions p.2.positions)) (some 0)
    let pairCount := pairs.length
    if pairCount = 0 then 0
    else
      match totalDistance with
      | none => 0
      | some d => max 0 (1 - ((d : ℚ) / pairCount) / 10)

/-- Model of `calculateInformationValue` (line 412): mean `tfIdf` of component words
that have tokens, times `ln(wordCount + 1)`. -/
noncomputable def calculateInformationValue (phrase : Str) (tokens : List Token) : ℝ :=
  let words := jsSplit phrase
  let wordTokens := words.filterMap (fun w => tokens.find? (fun t => t.word = w))
  if wordTokens.length = 0 then 0
  else
    let avgTfIdf := (wordTokens.map Token.tfIdf).sum / (wordTokens.length : ℝ)
    let lengthBonus := Real.log ((words.length : ℝ) + 1)
    avgTfIdf * lengthBonus

/-- Build the candidate n-gram for one adjacent word group, keeping it only
when it occurs in the lowercased source text (`freq > 0`, lines 312–326). -/
noncomputable def mkNGram (tokens : List Token) (lowerText : Str)
    (groupWords : List Str) : Option NGram :=
  let phrase := joinWords groupWords
  let freq := countOcc phrase lowerText
  if freq > 0 then
    some
      { phrase := phrase
        frequency := freq
        coherence := calculateCoherence groupWords tokens
        informationValue := calculateInformationValue phrase tokens
        positions := findPositions lowerText phrase }
  else none

/-- Model of `extractNGrams` (line 305): adjacent bigrams then trigrams over the token
word sequence, kept when literally present in the lowercased text, filtered to
coherence > 0.1, sorted descending by `informationValue × coherence`
(stable), top 20. -/
noncomputable def extractNGrams (tokens : List Token) (originalText : Str) : List NGram :=
  let words := tokens.map Token.word
  let lowerText := toLowerStr originalText
  let bigrams :=
    (words.zip words.tail).filterMap (fun p => mkNGram tokens lowerText [p.1, p.2])
  let trigrams :=
    ((words.zip words.tail).zip (words.tail.tail)).filterMap
      (fun p => mkNGram tokens lowerText [p.1.1, p.1.2, p.2])
  ((bigrams ++ trigrams).filter (fun ng => decide (ng.coherence > 1/10))).mergeSort
    (fun a b => decide (b.informationValue * (b.coherence : ℝ) ≤
                        a.informationValue * (a.coherence : ℝ)))
  |>.take 20

-- =============================================================================
-- Semantic clusterer (`clusterSemantically`, `calculateTermSimilarity`,
-- `getTermPositions`, `inferCategory`, lines 433–549)
-- =============================================================================

/-- Model of `SemanticCluster` (line 33). -/
structure SemanticCluster where
  centroid : Str
  members : List Str
  coherenceScore : ℝ
  category : String

/-- An entry of the unified candidate list `allTerms` (lines 434–437). -/
structure Cand where
  term : Str
  score : ℝ
  role : String

/-- Model of `getTermPositions` (line 507). -/
def getTermPositions (term : Str) (tokens : List Token) (ngrams : List NGram) : List ℕ :=
  match tokens.find? (fun t => t.word = term) with
  | some t => t.positions
  | none =>
    match ngrams.find? (fun ng => ng.phrase = term) with
    | some ng => ng.positions
    | none => []

/-- Model of `calculateTermSimilarity` (line 474): Jaccard word overlap if non-zero,
otherwise positional proximity `(5 - minDistance)/5` below distance 5. -/
def calculateTermSimilarity (term1 term2 : Str) (tokens : List Token)
    (ngrams : List NGram) : ℚ :=
  let words1 := jsSplit term1
  let words2 := jsSplit term2
  let intersection := words1.filter (fun w => words2.contains w)
  let union := dedupFirst (words1 ++ words2)
  let jaccard : ℚ := (intersection.length : ℚ) / union.length
  if jaccard > 0 then jaccard
  else
    let positions1 := getTermPositions term1 tokens ngrams
    let positions2 := getTermPositions term2 tokens ngrams
    if positions1.isEmpty ∨ positions2.isEmpty then 0
    else
      match minPairDist positions1 positions2 with
      | none => 0
      | some d => if d < 5 then ((5 - d : ℕ) : ℚ) / 5 else 0

/-- First character in `A`–`Z`, backing the regex `/^[A-Z]/`. -/
def startsWithUpper : Str → Bool
  | [] => false
  | c :: _ => 'A' ≤ c && c ≤ 'Z'

/-- A character of the currency/percent class `[$€£¥₹%]` (line 521). -/
def isCurrencyChar (c : Char) : Bool := c ∈ (str "$€£¥₹%")

/-- The tail of `inferCategory` after the `action` test fell through
(lines 538–548). -/
def inferCategoryTail (term : Str) (role : String) : String :=
  if role = "modifier" then "descriptor"
  else if term.contains ' ' ∧ role = "phrase" then "concept"
  else "general"

/-- Model of `inferCategory` (line 517), first match wins; the `action` branch only
fires when the looked-up score exceeds 0.01, otherwise evaluation falls
through to the remaining tests. -/
noncomputable def inferCategory (term : Str) (role : String)
    (allTerms : List Cand) : String :=
  if term.any Char.isDigit ∨ term.any isCurrencyChar then "quantitative"
  else if startsWithUpper term ∧ role = "entity" then "entity"
  else if role = "content" ∧ term.length > 4 then
    let score : ℝ := (((allTerms.find? (fun t => t.term = term)).map Cand.score).getD 0)
    if score > 1/100 then "action" else inferCategoryTail term role
  else inferCategoryTail term role

/-- State of the inner member-collection loop of `clusterSemantically`
(lines 454–463): members collected so far, accumulated coherence score, and
the `processed` set. -/
structure ClusterState where
  members : List Str
  score : ℝ
  processed : List Str

/-- One step of the inner loop (`for (const other of allTerms)`,
lines 454–463): skip the seed itself and processed terms; attach `other` when
similarity exceeds 0.3, accumulating similarity-weighted score and marking it
processed immediately. -/
noncomputable def clusterStep (tokens : List Token) (ngrams : List NGram)
    (seedTerm : Str) (st : ClusterState) (other : Cand) : ClusterState :=
  if other.term = seedTerm ∨ other.term ∈ st.processed then st
  else
    let similarity := calculateTermSimilarity seedTerm other.term tokens ngrams
    if similarity > 3/10 then
      { members := st.members ++ [other.term]
        score := st.score + other.score * (similarity : ℝ)
        processed := other.term :: st.processed }
    else st

/-- The outer greedy loop of `clusterSemantically` (lines 443–467): iterate
the candidates in order, skip processed ones, seed a cluster at each
unprocessed candidate, scan the full candidate list for members, then mark
the seed processed. -/
noncomputable def clusterLoop (tokens : List Token) (ngrams : List NGram)
    (allTerms : List Cand) : List Cand → List Str → List SemanticCluster
  | [], _ => []
  | t :: rest, processed =>
    if t.term ∈ processed then clusterLoop tokens ngrams allTerms rest processed
    else
      let st := allTerms.foldl (clusterStep tokens ngrams t.term)
        { members := [t.term], score := t.score, processed := processed }
      { centroid := t.term
        members := st.members
        coherenceScore := st.score
        category := inferCategory t.term t.role allTerms } ::
        clusterLoop tokens ngrams allTerms rest (t.term :: st.processed)

/-- The unified candidate list `allTerms` (lines 434–437). -/
noncomputable def allTermsOf (tokens : List Token) (ngrams : List NGram) : List Cand :=
  tokens.map (fun t => { term := t.word, score := t.tfIdf, role := roleToString t.semanticRole })
    ++ ngrams.map (fun ng => { term := ng.phrase, score := ng.informationValue, role := "phrase" })

/-- Model of `clusterSemantically` (line 433): greedy clustering, then sort by
aggregate coherence descending (stable) and keep the top 10. -/
noncomputable def clusterSemantically (tokens : List Token) (ngrams : List NGram) :
    List SemanticCluster :=
  let allTerms := allTermsOf tokens ngrams
  ((clusterLoop tokens ngrams allTerms allTerms []).mergeSort
    (fun a b => decide (b.coherenceScore ≤ a.coherenceScore))).take 10

-- =============================================================================
-- Query type classifier (`classifyQueryTypeStatistically`, lines 555–595)
-- =============================================================================

/-- The four accumulators of `categoryScores` (lines 558–563). -/
structure QScores where
  commercial : ℝ
  transactional : ℝ
  navigational : ℝ
  informational : ℝ

/-- One step of the accumulation `switch` (lines 565–587). -/
noncomputable def qScoreStep (acc : QScores) (c : SemanticCluster) : QScores :=
  let score := c.coherenceScore
  if c.category = "quantitative" then { acc with commercial := acc.commercial + score * 2 }
  else if c.category = "action" then
    { acc with transactional := acc.transactional + score * (3/2) }
  else if c.category = "entity" then
    { acc with navigational := acc.navigational + score }
  else if c.category = "concept" ∨ c.category = "descriptor" then
    { acc with informational := acc.informational + score }
  else { acc with informational := acc.informational + score * (1/2) }

/-- The accumulated category scores of a cluster list. -/
noncomputable def categoryScoresOf (clusters : List SemanticCluster) : QScores :=
  clusters.foldl qScoreStep
    { commercial := 0, transactional := 0, navigational := 0, informational := 0 }

/-- Model of `classifyQueryTypeStatistically` (line 555): accumulate the category
scores, then take `Object.entries(categoryScores).reduce(...)` with initial
accumulator `{informational, 0}` and strict improvement — the first category
(entry order: commercial, transactional, navigational, informational)
reaching the maximum wins, and the initial accumulator survives when no score
is strictly positive.  The language profile parameter is unused, as in the
source. -/
noncomputable def classifyQueryTypeStatistically (clusters : List SemanticCluster)
    (_languageProfile : LanguageProfile) : String :=
  let s := categoryScoresOf clusters
  (([("commercial", s.commercial), ("transactional", s.transactional),
     ("navigational", s.navigational), ("informational", s.informational)] :
      List (String × ℝ)).foldl
    (fun best p => if best.2 < p.2 then p else best) ("informational", (0 : ℝ))).1

-- =============================================================================
-- Main analysis function (`analyze`, lines 601–663)
-- =============================================================================

/-- The summary metrics record (`nlpMetrics`, lines 656–661). -/
structure NlpMetrics where
  totalTokens : ℕ
  avgTfIdf : ℝ
  vocabularyRichness : ℚ
  semanticCohesion : ℝ

/-- The analysis result returned by `analyze` (lines 645–662).  The
`entities` field (regex utility external to the statistical core, spec §6)
is omitted. -/
structure AnalysisResult where
  mainQuery : Str
  queryType : String
  confidence : ℤ
  language : String
  languageConfidence : ℚ
  keyphrases : List Str
  semanticClusters : List SemanticCluster
  tokens : List Token
  stopWordsIdentified : List Str
  nlpMetrics : NlpMetrics

/-- The combined text `` `${title} ${metaDescription} ${bodyText}` `` (line 602). -/
def combinedAt (title metaDescription bodyText : Str) : Str :=
  title ++ ' ' :: metaDescription ++ ' ' :: bodyText

/-- Step 2 of `analyze` (line 610): lowercased whitespace split of the
combined text, empty fields removed. -/
def wordsAt (title metaDescription bodyText : Str) : List Str :=
  splitWords (toLowerStr (combinedAt title metaDescription bodyText))

/-- The stop words induced for one analysis call (line 611). -/
def stopWordsAt (title metaDescription bodyText : Str) (rand : ℕ → Bool) : List Str :=
  identifyStopWordsStatistically rand (wordsAt title metaDescription bodyText)

/-- The weighted token list of one analysis call (line 614). -/
noncomputable def tokensAt (title metaDescription bodyText : Str) (rand : ℕ → Bool) :
    List Token :=
  calculateTFIDF (wordsAt title metaDescription bodyText)
    (stopWordsAt title metaDescription bodyText rand)

/-- The extracted phrase list of one analysis call (line 617). -/
noncomputable def ngramsAt (title metaDescription bodyText : Str) (rand : ℕ → Bool) :
    List NGram :=
  extractNGrams (tokensAt title metaDescription bodyText rand)
    (combinedAt title metaDescription bodyText)

/-- The semantic clusters of one analysis call (line 620). -/
noncomputable def clustersAt (title metaDescription bodyText : Str) (rand : ℕ → Bool) :
    List SemanticCluster :=
  clusterSemantically (tokensAt title metaDescription bodyText rand)
    (ngramsAt title metaDescription bodyText rand)

/-- Step 7 of `analyze` (lines 626–638): main-query selection.  The
`tokens[0]?.word || title.toLowerCase()` fallback treats an empty first token
word as falsy, exactly as JavaScript does. -/
def selectMainQuery (ngrams : List NGram) (tokens : List Token) (lowerTitle : Str) : Str :=
  let titleNgrams := ngrams.filter (fun ng => hasSub lowerTitle ng.phrase)
  match titleNgrams with
  | tng :: _ => tng.phrase
  | [] =>
    match ngrams with
    | ng :: _ => ng.phrase
    | [] =>
      let titleTokens := tokens.filter (fun t => hasSub lowerTitle t.word)
      match titleTokens with
      | tt :: _ => tt.word
      | [] =>
        match tokens with
        | t :: _ => if t.word.isEmpty then lowerTitle else t.word
        | [] => lowerTitle

/-- Model of `analyze` (line 601). -/
noncomputable def analyze (title metaDescription bodyText : Str)
    (preferredLanguage : Option String) (rand : ℕ → Bool) : AnalysisResult :=
  let combinedText := combinedAt title metaDescription bodyText
  let languageProfile :=
    match preferredLanguage with
    | some l =>
      { language := l, confidence := 1, avgWordLength := 0, vowelShare := 0
        consonantClusters := 0 }
    | none => detectLanguageStatistically combinedText
  let words := wordsAt title metaDescription bodyText
  let stopWords := stopWordsAt title metaDescription bodyText rand
  let tokens := tokensAt title metaDescription bodyText rand
  let ngrams := ngramsAt title metaDescription bodyText rand
  let clusters := clustersAt title metaDescription bodyText rand
  let queryType := classifyQueryTypeStatistically clusters languageProfile
  let mainQuery := selectMainQuery ngrams tokens (toLowerStr title)
  let topClusterScore : ℝ := ((clusters.head?.map SemanticCluster.coherenceScore).getD 0)
  let topNgramScore : ℝ := ((ngrams.head?.map NGram.informationValue).getD 0)
  let confidence : ℤ := min 100 (round ((topClusterScore + topNgramScore) * 10))
  { mainQuery := mainQuery
    queryType := queryType
    confidence := confidence
    language := languageProfile.language
    languageConfidence := languageProfile.confidence
    keyphrases := (ngrams.take 5).map NGram.phrase
    semanticClusters := clusters.take 5
    tokens := tokens.take 10
    stopWordsIdentified := stopWords.take 10
    nlpMetrics :=
      { totalTokens := tokens.length
        avgTfIdf := (tokens.map Token.tfIdf).sum / (tokens.length : ℝ)
        vocabularyRichness := (tokens.length : ℚ) / (words.length : ℚ)
        semanticCohesion :=
          (clusters.map SemanticCluster.coherenceScore).sum / (clusters.length : ℝ) } }

-- =============================================================================
-- Caller-facing boundary (`extractQueryPureNLP`, lines 846–861)
-- =============================================================================

/-- The arguments of `extractQueryPureNLP` (line 846). -/
structure ExtractArgs where
  url : Option Str
  title : Str
  metaDescription : Option Str
  bodyText : Str
  language : Option String

/-- The error message thrown by the boundary check (line 856). -/
def errRequired : String := "Title e bodyText sono richiesti"

/-- Model of `extractQueryPureNLP` (line 846): raise when `title` or `bodyText` is
empty or whitespace-only (JavaScript falsiness of the trimmed string),
otherwise run the core analysis (`metaDescription || ""`).  The JSON-LD
wrapping of the result is external serialisation and not embedded; the
returned value is the core analysis result. -/
noncomputable def extractQueryPureNLP (args : ExtractArgs) (rand : ℕ → Bool) :
    Except String AnalysisResult :=
  if (trimStr args.title).isEmpty ∨ (trimStr args.bodyText).isEmpty then
    .error errRequired
  else
    .ok (analyze args.title (args.metaDescription.getD []) args.bodyText args.language rand)

-- =============================================================================
-- Helper lemmas
-- =============================================================================

theorem toNat_ofNatAux (n : ℕ) (h : n.isValidChar) : (Char.ofNatAux n h).toNat = n := by
  simp [Char.ofNatAux, Char.toNat, UInt32.ofNat']
  rfl

/-- Applying `Char.toLower` never produces an ASCII uppercase letter. -/
theorem toLower_not_upper (c : Char) : ¬('A' ≤ c.toLower ∧ c.toLower ≤ 'Z') := by
  rintro ⟨h1, h2⟩
  rw [Char.le_def] at h1 h2
  have h1n : ('A' : Char).toNat ≤ c.toLower.toNat := h1
  have h2n : c.toLower.toNat ≤ ('Z' : Char).toNat := h2
  have hA : ('A' : Char).toNat = 65 := rfl
  have hZ : ('Z' : Char).toNat = 90 := rfl
  simp only [Char.toLower] at h1n h2n
  by_cases h : c.toNat ≥ 65 ∧ c.toNat ≤ 90
  · rw [if_pos h] at h1n h2n
    have hv : (c.toNat + 32).isValidChar := by
      constructor
      omega
    rw [show Char.ofNat (c.toNat + 32) = Char.ofNatAux (c.toNat + 32) hv from by
      simp [Char.ofNat, hv]] at h1n h2n
    rw [toNat_ofNatAux] at h1n h2n
    omega
  · rw [if_neg h] at h1n h2n
    omega

theorem mem_dedupFirstGo (x : Str) (l : List Str) : ∀ seen : List Str,
    (x ∈ dedupFirstGo seen l ↔ x ∈ l ∧ x ∉ seen) := by
  induction l with
  | nil => intro seen; simp [dedupFirstGo]
  | cons w ws ih =>
    intro seen
    by_cases hw : w ∈ seen
    · simp only [dedupFirstGo, if_pos hw, ih, List.mem_cons]
      constructor
      · rintro ⟨hx, hs⟩
        exact ⟨Or.inr hx, hs⟩
      · rintro ⟨hx | hx, hs⟩
        · exact absurd (hx ▸ hw) hs
        · exact ⟨hx, hs⟩
    · simp only [dedupFirstGo, if_neg hw, List.mem_cons, ih]
      by_cases hxw : x = w
      · subst hxw
        simp [hw]
      · simp [hxw]

theorem mem_dedupFirst {x : Str} {l : List Str} : x ∈ dedupFirst l ↔ x ∈ l := by
  unfold dedupFirst
  rw [mem_dedupFirstGo]
  simp

theorem length_dedupFirstGo_le (l : List Str) : ∀ seen : List Str,
    (dedupFirstGo seen l).length ≤ l.length := by
  induction l with
  | nil => intro seen; simp [dedupFirstGo]
  | cons w ws ih =>
    intro seen
    by_cases hw : w ∈ seen
    · simp only [dedupFirstGo, if_pos hw, List.length_cons]
      exact Nat.le_succ_of_le (ih seen)
    · simp only [dedupFirstGo, if_neg hw, List.length_cons]
      exact Nat.succ_le_succ (ih (w :: seen))

theorem length_dedupFirst_le (l : List Str) : (dedupFirst l).length ≤ l.length :=
  length_dedupFirstGo_le l []

/-- Membership description of the term weighter's output. -/
theorem mem_calculateTFIDF {words stopWords : List Str} {tok : Token} :
    tok ∈ calculateTFIDF words stopWords ↔
      ∃ w ∈ dedupFirst (filteredWords words stopWords),
        mkToken (filteredWords words stopWords) w = tok := by
  unfold calculateTFIDF
  rw [(List.mergeSort_perm _ _).mem_iff, List.mem_map]

theorem length_calculateTFIDF (words stopWords : List Str) :
    (calculateTFIDF words stopWords).length =
      (dedupFirst (filteredWords words stopWords)).length := by
  unfold calculateTFIDF
  rw [List.length_mergeSort, List.length_map]

theorem mem_filteredWords_length {words stopWords : List Str} {w : Str}
    (h : w ∈ filteredWords words stopWords) : 1 < w.length := by
  unfold filteredWords at h
  rw [List.mem_filter] at h
  have := h.2
  simp only [Bool.and_eq_true, decide_eq_true_eq] at this
  exact this.2

theorem mem_filteredWords_sub {words stopWords : List Str} {w : Str}
    (h : w ∈ filteredWords words stopWords) : w ∈ words :=
  (List.mem_filter.mp h).1

/-- The token built for a retained word has that word, its raw count as
frequency, and the TF·IDF product of `calculateTFIDF` as weight. -/
theorem mkToken_fields (contentWords : List Str) (w : Str) :
    (mkToken contentWords w).word = w ∧
    (mkToken contentWords w).frequency = contentWords.count w ∧
    (mkToken contentWords w).tfIdf =
      ((contentWords.count w : ℝ) / (contentWords.length : ℝ)) *
        Real.log ((contentWords.length : ℝ) / (contentWords.count w : ℝ)) :=
  ⟨rfl, rfl, rfl⟩

theorem tokens_sorted (l : List Token) :
    (l.mergeSort (fun a b => decide (b.tfIdf ≤ a.tfIdf))).Pairwise
      (fun a b => b.tfIdf ≤ a.tfIdf) := by
  have hs := @List.sorted_mergeSort Token (fun a b => decide (b.tfIdf ≤ a.tfIdf))
    (fun a b c hab hbc => by
      simp only [decide_eq_true_eq] at *
      exact le_trans hbc hab)
    (fun a b => by
      simp only [Bool.or_eq_true, decide_eq_true_eq]
      exact le_total b.tfIdf a.tfIdf) l
  exact hs.imp (by simp only [decide_eq_true_eq]; exact fun h => h)

/-- C6: every token of `calculateTFIDF` carries the weight
`(frequency / total) · ln(total / frequency)` over the filtered word count,
that weight is non-negative, and the output is sorted descending by weight. -/
theorem claim_C6 (words stopWords : List Str) :
    (∀ tok ∈ calculateTFIDF words stopWords,
        tok.tfIdf = ((tok.frequency : ℝ) / ((filteredWords words stopWords).length : ℝ)) *
          Real.log (((filteredWords words stopWords).length : ℝ) / (tok.frequency : ℝ)) ∧
        0 ≤ tok.tfIdf) ∧
    (calculateTFIDF words stopWords).Pairwise (fun a b => b.tfIdf ≤ a.tfIdf) := by
  constructor
  · intro tok htok
    obtain ⟨w, hw, he⟩ := mem_calculateTFIDF.mp htok
    subst he
    obtain ⟨-, hfreq, htf⟩ := mkToken_fields (filteredWords words stopWords) w
    have hmem : w ∈ filteredWords words stopWords := mem_dedupFirst.mp hw
    have hpos : 0 < (filteredWords words stopWords).count w :=
      List.count_pos_iff.mpr hmem
    have hle : (filteredWords words stopWords).count w ≤
        (filteredWords words stopWords).length := List.count_le_length _ _
    constructor
    · rw [htf, hfreq]
    · rw [htf]
      apply mul_nonneg
      · apply div_nonneg <;> positivity
      · apply Real.log_nonneg
        rw [le_div_iff₀ (by exact_mod_cast hpos)]
        simpa using (Nat.cast_le (α := ℝ)).mpr hle
  · exact tokens_sorted _

/-- Concrete run for the C6 witness: the two-word text with one retained
distinct word. -/
def c6words : List Str := [str "hello", str "hello"]

theorem c6_eval : calculateTFIDF c6words [] =
    [mkToken (filteredWords c6words []) (str "hello")] := by
  with_unfolding_all rfl

/-- Witness for C6 at a concrete input. -/
theorem claim_C6_witness :
    mkToken (filteredWords c6words []) (str "hello") ∈ calculateTFIDF c6words [] ∧
    ((mkToken (filteredWords c6words []) (str "hello")).tfIdf =
      (((mkToken (filteredWords c6words []) (str "hello")).frequency : ℝ) /
        ((filteredWords c6words []).length : ℝ)) *
        Real.log (((filteredWords c6words []).length : ℝ) /
          ((mkToken (filteredWords c6words []) (str "hello")).frequency : ℝ)) ∧
      0 ≤ (mkToken (filteredWords c6words []) (str "hello")).tfIdf) := by
  have hmem : mkToken (filteredWords c6words []) (str "hello") ∈ calculateTFIDF c6words [] := by
    rw [c6_eval]
    exact List.mem_singleton.mpr rfl
  exact ⟨hmem, (claim_C6 c6words []).1 _ hmem⟩

theorem mkNGram_some {tokens : List Token} {lowText : Str} {group : List Str}
    {ng : NGram} (h : mkNGram tokens lowText group = some ng) :
    1 ≤ countOcc ng.phrase lowText := by
  unfold mkNGram at h
  by_cases hf : countOcc (joinWords group) lowText > 0
  · rw [if_pos hf] at h
    cases h
    exact hf
  · rw [if_neg hf] at h
    cases h

theorem ngrams_sorted (l : List NGram) :
    (l.mergeSort (fun a b => decide (b.informationValue * (b.coherence : ℝ) ≤
        a.informationValue * (a.coherence : ℝ)))).Pairwise
      (fun a b => b.informationValue * (b.coherence : ℝ) ≤
        a.informationValue * (a.coherence : ℝ)) := by
  have hs := @List.sorted_mergeSort NGram
    (fun a b => decide (b.informationValue * (b.coherence : ℝ) ≤
      a.informationValue * (a.coherence : ℝ)))
    (fun a b c hab hbc => by
      simp only [decide_eq_true_eq] at *
      exact le_trans hbc hab)
    (fun a b => by
      simp only [Bool.or_eq_true, decide_eq_true_eq]
      exact le_total _ _) l
  exact hs.imp (by simp only [decide_eq_true_eq]; exact fun h => h)

/-- C5: every phrase kept by the extractor has coherence above 0.1 and occurs
at least once in the lowercased source text; the output is sorted descending
by `informationValue × coherence` and has at most 20 entries. -/
theorem claim_C5 (tokens : List Token) (originalText : Str) :
    (∀ ng ∈ extractNGrams tokens originalText,
        (1 : ℚ)/10 < ng.coherence ∧
        1 ≤ countOcc ng.phrase (toLowerStr originalText)) ∧
    (extractNGrams tokens originalText).Pairwise
      (fun a b => b.informationValue * (b.coherence : ℝ) ≤
        a.informationValue * (a.coherence : ℝ)) ∧
    (extractNGrams tokens originalText).length ≤ 20 := by
  refine ⟨?_, ?_, ?_⟩
  · intro ng hng
    unfold extractNGrams at hng
    have hms := List.mem_of_mem_take hng
    rw [(List.mergeSort_perm _ _).mem_iff, List.mem_filter] at hms
    obtain ⟨hmem, hcoh⟩ := hms
    refine ⟨by simpa using hcoh, ?_⟩
    rw [List.mem_append] at hmem
    rcases hmem with hb | ht
    · obtain ⟨p, -, hp⟩ := List.mem_filterMap.mp hb
      exact mkNGram_some hp
    · obtain ⟨p, -, hp⟩ := List.mem_filterMap.mp ht
      exact mkNGram_some hp
  · unfold extractNGrams
    exact (ngrams_sorted _).sublist (List.take_sublist _ _)
  · unfold extractNGrams
    exact List.length_take_le _ _

/-- Hand-built token pair for the C5 witness. -/
def c5tokens : List Token :=
  [{ word := str "alpha", frequency := 1, positions := [0], tfIdf := 1, entropy := 0
     contextDiversity := 1, semanticRole := .content },
   { word := str "beta", frequency := 1, positions := [1], tfIdf := 1, entropy := 0
     contextDiversity := 1, semanticRole := .content }]

/-- Source text of the C5 witness. -/
def c5text : Str := str "alpha beta"

/-- The single phrase the extractor yields on the witness input. -/
noncomputable def c5ng : NGram :=
  (mkNGram c5tokens (toLowerStr c5text) [str "alpha", str "beta"]).getD
    { phrase := [], frequency := 0, coherence := 0, informationValue := 0, positions := [] }

theorem c5_eval : extractNGrams c5tokens c5text = [c5ng] := by
  with_unfolding_all rfl

/-- Witness for C5 at a concrete input. -/
theorem claim_C5_witness :
    c5ng ∈ extractNGrams c5tokens c5text ∧
    ((1 : ℚ)/10 < c5ng.coherence ∧ 1 ≤ countOcc c5ng.phrase (toLowerStr c5text)) := by
  have hmem : c5ng ∈ extractNGrams c5tokens c5text := by
    rw [c5_eval]
    exact List.mem_singleton.mpr rfl
  exact ⟨hmem, (claim_C5 c5tokens c5text).1 _ hmem⟩

/-- Invariant of the inner member-collection loop: the processed set only
grows, and the members gained are distinct terms that were unprocessed at
loop entry, differ from the seed, and end up processed. -/
theorem clusterStep_foldl_inv (tokens : List Token) (ngrams : List NGram)
    (seed : Str) (l : List Cand) : ∀ st : ClusterState,
    st.processed ⊆ (l.foldl (clusterStep tokens ngrams seed) st).processed ∧
    ∃ new : List Str,
      (l.foldl (clusterStep tokens ngrams seed) st).members = st.members ++ new ∧
      new.Nodup ∧
      ∀ x ∈ new, x ∉ st.processed ∧ x ≠ seed ∧
        x ∈ (l.foldl (clusterStep tokens ngrams seed) st).processed := by
  induction l with
  | nil =>
    intro st
    exact ⟨List.Subset.refl _, [], by simp, List.nodup_nil, by simp⟩
  | cons c rest ih =>
    intro st
    rw [List.foldl_cons]
    by_cases h1 : c.term = seed ∨ c.term ∈ st.processed
    · rw [show clusterStep tokens ngrams seed st c = st from by
        unfold clusterStep
        rw [if_pos h1]]
      exact ih st
    · by_cases h2 : calculateTermSimilarity seed c.term tokens ngrams > 3/10
      · have hstep : clusterStep tokens ngrams seed st c =
            { members := st.members ++ [c.term]
              score := st.score + c.score * ((calculateTermSimilarity seed c.term tokens ngrams : ℚ) : ℝ)
              processed := c.term :: st.processed } := by
          unfold clusterStep
          rw [if_neg h1, if_pos h2]
        rw [hstep]
        set st1 : ClusterState :=
          { members := st.members ++ [c.term]
            score := st.score + c.score * ((calculateTermSimilarity seed c.term tokens ngrams : ℚ) : ℝ)
            processed := c.term :: st.processed } with hst1
        obtain ⟨hsub, new1, hm, hnd, hprop⟩ := ih st1
        have hsub0 : st.processed ⊆ st1.processed := by
          intro x hx
          exact List.mem_cons_of_mem _ hx
        refine ⟨fun x hx => hsub (hsub0 hx), c.term :: new1, ?_, ?_, ?_⟩
        · rw [hm]
          simp [hst1]
        · refine List.nodup_cons.mpr ⟨?_, hnd⟩
          intro hmem
          have := (hprop _ hmem).1
          exact this (List.mem_cons_self _ _)
        · intro x hx
          rcases List.mem_cons.mp hx with hx | hx
          · subst hx
            refine ⟨?_, ?_, hsub (List.mem_cons_self _ _)⟩
            · intro hc
              exact h1 (Or.inr hc)
            · intro hc
              exact h1 (Or.inl hc)
          · obtain ⟨hp1, hp2, hp3⟩ := hprop _ hx
            refine ⟨fun hc => hp1 (hsub0 hc), hp2, hp3⟩
      · rw [show clusterStep tokens ngrams seed st c = st from by
          unfold clusterStep
          rw [if_neg h1, if_neg h2]]
        exact ih st

/-- Unfolding equation of `clusterLoop` on a cons cell. -/
theorem clusterLoop_cons (tokens : List Token) (ngrams : List NGram)
    (allTerms : List Cand) (t : Cand) (rest : List Cand) (processed : List Str) :
    clusterLoop tokens ngrams allTerms (t :: rest) processed =
      (if t.term ∈ processed then clusterLoop tokens ngrams allTerms rest processed
      else
        let st := allTerms.foldl (clusterStep tokens ngrams t.term)
          { members := [t.term], score := t.score, processed := processed }
        { centroid := t.term
          members := st.members
          coherenceScore := st.score
          category := inferCategory t.term t.role allTerms } ::
          clusterLoop tokens ngrams allTerms rest (t.term :: st.processed)) := rfl

/-- Invariant of the outer greedy loop: every emitted cluster has duplicate-free
members avoiding the inherited processed set, and member lists of distinct
clusters are disjoint. -/
theorem clusterLoop_inv (tokens : List Token) (ngrams : List NGram)
    (allTerms : List Cand) (l : List Cand) : ∀ processed : List Str,
    (∀ c ∈ clusterLoop tokens ngrams allTerms l processed,
        c.members.Nodup ∧ ∀ x ∈ c.members, x ∉ processed) ∧
    (clusterLoop tokens ngrams allTerms l processed).Pairwise
      (fun c₁ c₂ => ∀ x ∈ c₁.members, x ∉ c₂.members) := by
  induction l with
  | nil =>
    intro processed
    constructor
    · intro c hc
      simp [clusterLoop] at hc
    · simp [clusterLoop]
  | cons t rest ih =>
    intro processed
    by_cases hp : t.term ∈ processed
    · rw [show clusterLoop tokens ngrams allTerms (t :: rest) processed =
          clusterLoop tokens ngrams allTerms rest processed from by
        rw [clusterLoop_cons, if_pos hp]]
      exact ih processed
    · rw [show clusterLoop tokens ngrams allTerms (t :: rest) processed =
          { centroid := t.term
            members := (allTerms.foldl (clusterStep tokens ngrams t.term)
              { members := [t.term], score := t.score, processed := processed }).members
            coherenceScore := (allTerms.foldl (clusterStep tokens ngrams t.term)
              { members := [t.term], score := t.score, processed := processed }).score
            category := inferCategory t.term t.role allTerms } ::
            clusterLoop tokens ngrams allTerms rest
              (t.term :: (allTerms.foldl (clusterStep tokens ngrams t.term)
                { members := [t.term], score := t.score, processed := processed }).processed)
          from by
        rw [clusterLoop_cons, if_neg hp]]
      set st0 : ClusterState := { members := [t.term], score := t.score, processed := processed }
        with hst0
      set st := allTerms.foldl (clusterStep tokens ngrams t.term) st0 with hst
      obtain ⟨hsub, new, hm, hnd, hprop⟩ := clusterStep_foldl_inv tokens ngrams t.term allTerms st0
      obtain ⟨ih1, ih2⟩ := ih (t.term :: st.processed)
      have hmemdesc : ∀ x ∈ st.members, x = t.term ∨ x ∈ new := by
        intro x hx
        rw [← hst] at hm
        rw [hm] at hx
        rcases List.mem_append.mp hx with hx | hx
        · left
          simpa [hst0] using hx
        · right
          exact hx
      have hmem_in_proc : ∀ x ∈ st.members, x ∈ t.term :: st.processed := by
        intro x hx
        rcases hmemdesc x hx with hx | hx
        · subst hx
          exact List.mem_cons_self _ _
        · exact List.mem_cons_of_mem _ (hprop x hx).2.2
      constructor
      · intro c hc
        rcases List.mem_cons.mp hc with hc | hc
        · subst hc
          constructor
          · show st.members.Nodup
            rw [← hst] at hm
            rw [hm]
            simp only [hst0]
            refine List.nodup_cons.mpr ⟨?_, hnd⟩
            intro hmem
            exact (hprop _ hmem).2.1 rfl
          · intro x hx hxp
            rcases hmemdesc x hx with hx | hx
            · exact hp (hx ▸ hxp)
            · exact (hprop x hx).1 (by simpa [hst0] using hxp)
        · have := (ih1 c hc).2
          refine ⟨(ih1 c hc).1, ?_⟩
          intro x hx hxp
          have hxin : x ∈ t.term :: st.processed :=
            List.mem_cons_of_mem _ (hsub (by simpa [hst0] using hxp))
          exact this x hx hxin
      · refine List.pairwise_cons.mpr ⟨?_, ih2⟩
        intro c2 hc2 x hx hx2
        have hxin : x ∈ t.term :: st.processed := hmem_in_proc x hx
        exact (ih1 c2 hc2).2 x hx2 hxin

/-- C4: cluster member lists are pairwise disjoint (first-seed-wins greedy
assignment never reassigns a term), and no member list repeats a term. -/
theorem claim_C4 (tokens : List Token) (ngrams : List NGram) :
    (clusterSemantically tokens ngrams).Pairwise
      (fun c₁ c₂ => ∀ x ∈ c₁.members, x ∉ c₂.members) ∧
    ∀ c ∈ clusterSemantically tokens ngrams, c.members.Nodup := by
  obtain ⟨h1, h2⟩ := clusterLoop_inv tokens ngrams (allTermsOf tokens ngrams)
    (allTermsOf tokens ngrams) []
  have hsymm : ∀ {c₁ c₂ : SemanticCluster},
      (∀ x ∈ c₁.members, x ∉ c₂.members) → (∀ x ∈ c₂.members, x ∉ c₁.members) := by
    intro c₁ c₂ h x hx2 hx1
    exact h x hx1 hx2
  constructor
  · unfold clusterSemantically
    refine List.Pairwise.sublist (List.take_sublist _ _) ?_
    exact ((List.mergeSort_perm _ _).pairwise_iff hsymm).mpr h2
  · intro c hc
    unfold clusterSemantically at hc
    have := List.mem_of_mem_take hc
    rw [(List.mergeSort_perm _ _).mem_iff] at this
    exact (h1 c this).1

/-- Hand-built singleton candidate set for the C4 witness. -/
def c4tokens : List Token :=
  [{ word := str "alpha", frequency := 1, positions := [0], tfIdf := 1, entropy := 0
     contextDiversity := 1, semanticRole := .modifier }]

/-- The single cluster the witness run yields. -/
noncomputable def c4cluster : SemanticCluster :=
  (clusterSemantically c4tokens []).headD
    { centroid := [], members := [], coherenceScore := 0, category := "" }

theorem c4_eval : clusterSemantically c4tokens [] = [c4cluster] := by
  with_unfolding_all rfl

/-- Witness for C4 at a concrete input. -/
theorem claim_C4_witness :
    c4cluster ∈ clusterSemantically c4tokens [] ∧ c4cluster.members.Nodup := by
  have hmem : c4cluster ∈ clusterSemantically c4tokens [] := by
    rw [c4_eval]
    exact List.mem_singleton.mpr rfl
  exact ⟨hmem, (claim_C4 c4tokens []).2 _ hmem⟩

-- =============================================================================
-- Spec-side definitions and theorems for the query-type classifier (C2)
-- =============================================================================

/-- Spec: commercial accumulates 2× the coherence of quantitative clusters. -/
noncomputable def commercialScoreSpec (clusters : List SemanticCluster) : ℝ :=
  (clusters.map (fun c =>
    if c.category = "quantitative" then c.coherenceScore * 2 else 0)).sum

/-- Spec: transactional accumulates 1.5× the coherence of action clusters. -/
noncomputable def transactionalScoreSpec (clusters : List SemanticCluster) : ℝ :=
  (clusters.map (fun c =>
    if c.category = "action" then c.coherenceScore * (3/2) else 0)).sum

/-- Spec: navigational accumulates the coherence of entity clusters. -/
noncomputable def navigationalScoreSpec (clusters : List SemanticCluster) : ℝ :=
  (clusters.map (fun c =>
    if c.category = "entity" then c.coherenceScore else 0)).sum

/-- Spec: informational accumulates concept/descriptor coherence at 1× and
every other category (beyond the three above) at 0.5×. -/
noncomputable def informationalScoreSpec (clusters : List SemanticCluster) : ℝ :=
  (clusters.map (fun c =>
    if c.category = "concept" ∨ c.category = "descriptor" then c.coherenceScore
    else if c.category = "quantitative" ∨ c.category = "action" ∨ c.category = "entity" then 0
    else c.coherenceScore * (1/2))).sum

/-- Amended selection rule: highest accumulated score wins, ties broken
toward the earliest category in the fixed order commercial, transactional,
navigational, informational; informational also wins when no score is
strictly positive. -/
noncomputable def specSelectQueryType (s : QScores) : String :=
  if s.commercial > 0 ∧ s.transactional ≤ s.commercial ∧ s.navigational ≤ s.commercial ∧
      s.informational ≤ s.commercial then "commercial"
  else if s.transactional > 0 ∧ s.navigational ≤ s.transactional ∧
      s.informational ≤ s.transactional then "transactional"
  else if s.navigational > 0 ∧ s.informational ≤ s.navigational then "navigational"
  else "informational"

theorem categoryScores_foldl (l : List SemanticCluster) : ∀ acc : QScores,
    l.foldl qScoreStep acc =
      { commercial := acc.commercial + commercialScoreSpec l
        transactional := acc.transactional + transactionalScoreSpec l
        navigational := acc.navigational + navigationalScoreSpec l
        informational := acc.informational + informationalScoreSpec l } := by
  induction l with
  | nil =>
    intro acc
    simp [commercialScoreSpec, transactionalScoreSpec, navigationalScoreSpec,
      informationalScoreSpec]
  | cons c l ih =>
    intro acc
    rw [List.foldl_cons, ih]
    simp only [commercialScoreSpec, transactionalScoreSpec, navigationalScoreSpec,
      informationalScoreSpec, List.map_cons, List.sum_cons, qScoreStep]
    by_cases h1 : c.category = "quantitative"
    · simp [h1]
      ring
    · by_cases h2 : c.category = "action"
      · simp [h1, h2]
        ring
      · by_cases h3 : c.category = "entity"
        · simp [h1, h2, h3]
          ring
        · by_cases h4 : c.category = "concept" ∨ c.category = "descriptor"
          · simp [h1, h2, h3, h4]
            ring
          · simp [h1, h2, h3, h4]
            ring

theorem reduce_eq_specSelect (s : QScores) :
    (([("commercial", s.commercial), ("transactional", s.transactional),
       ("navigational", s.navigational), ("informational", s.informational)] :
        List (String × ℝ)).foldl
      (fun best p => if best.2 < p.2 then p else best) ("informational", (0 : ℝ))).1
    = specSelectQueryType s := by
  simp only [List.foldl_cons, List.foldl_nil]
  unfold specSelectQueryType
  split_ifs <;> simp_all <;> linarith

theorem classify_eq_specSelect (clusters : List SemanticCluster)
    (profile : LanguageProfile) :
    classifyQueryTypeStatistically clusters profile =
      specSelectQueryType
        { commercial := commercialScoreSpec clusters
          transactional := transactionalScoreSpec clusters
          navigational := navigationalScoreSpec clusters
          informational := informationalScoreSpec clusters } := by
  unfold classifyQueryTypeStatistically
  have hacc : categoryScoresOf clusters =
      { commercial := commercialScoreSpec clusters
        transactional := transactionalScoreSpec clusters
        navigational := navigationalScoreSpec clusters
        informational := informationalScoreSpec clusters } := by
    unfold categoryScoresOf
    rw [categoryScores_foldl]
    simp
  rw [hacc, reduce_eq_specSelect]

/-- C2 (amended): the query type is the category with the highest accumulated
category-weighted score (weights exactly as claimed), but ties are broken
toward the earliest category in the fixed order commercial, transactional,
navigational, informational — not always toward "informational". -/
theorem claim_C2 (clusters : List SemanticCluster) (profile : LanguageProfile) :
    classifyQueryTypeStatistically clusters profile =
      specSelectQueryType
        { commercial := commercialScoreSpec clusters
          transactional := transactionalScoreSpec clusters
          navigational := navigationalScoreSpec clusters
          informational := informationalScoreSpec clusters } :=
  classify_eq_specSelect clusters profile

/-- Fixed language profile used when exercising the classifier directly. -/
def profile0 : LanguageProfile :=
  { language := "en", confidence := 0, avgWordLength := 0, vowelShare := 0
    consonantClusters := 0 }

/-- The two clusters of the C2 counterexample: accumulated commercial and
transactional scores tie at 2. -/
noncomputable def c2clusters : List SemanticCluster :=
  [{ centroid := str "x", members := [str "x"], coherenceScore := 1
     category := "quantitative" },
   { centroid := str "y", members := [str "y"], coherenceScore := 4/3
     category := "action" }]

/-- Counterexample to C2 as stated: with a commercial/transactional tie for
the highest accumulated score, the code returns "commercial", not
"informational". -/
theorem claim_C2_counterexample :
    commercialScoreSpec c2clusters = 2 ∧
    transactionalScoreSpec c2clusters = 2 ∧
    navigationalScoreSpec c2clusters = 0 ∧
    informationalScoreSpec c2clusters = 0 ∧
    classifyQueryTypeStatistically c2clusters profile0 = "commercial" ∧
    ("commercial" : String) ≠ "informational" := by
  refine ⟨?_, ?_, ?_, ?_, ?_, by decide⟩
  · simp [commercialScoreSpec, c2clusters]
  · norm_num [transactionalScoreSpec, c2clusters]
    decide
  · simp [navigationalScoreSpec, c2clusters]
  · simp [informationalScoreSpec, c2clusters]
  · unfold classifyQueryTypeStatistically categoryScoresOf
    have hne : (("action" : String) = "quantitative") = False := by
      simp only [eq_iff_iff, iff_false]
      decide
    simp only [c2clusters, List.foldl_cons, List.foldl_nil, qScoreStep, hne, if_false,
      eq_self_iff_true, if_true]
    norm_num

-- =============================================================================
-- Lowercase-character chain for C9
-- =============================================================================

/-- No character of a lowercased string is an ASCII uppercase letter. -/
theorem mem_toLowerStr_not_upper {c : Char} {s : Str} (h : c ∈ toLowerStr s) :
    ¬('A' ≤ c ∧ c ≤ 'Z') := by
  unfold toLowerStr at h
  obtain ⟨d, -, hd⟩ := List.mem_map.mp h
  exact hd ▸ toLower_not_upper d

theorem mem_jsSplitGo_chars {w : Str} {c : Char} :
    ∀ (acc : Str) (s : Str), w ∈ jsSplitGo acc s → c ∈ w → c ∈ acc ∨ c ∈ s := by
  refine jsSplitGo.induct
    (fun acc s => w ∈ jsSplitGo acc s → c ∈ w → c ∈ acc ∨ c ∈ s) ?_ ?_ ?_
  · intro acc hw hc
    simp only [jsSplitGo, List.mem_singleton] at hw
    subst hw
    exact Or.inl (List.mem_reverse.mp hc)
  · intro acc ch cs hws ih hw hc
    rw [show jsSplitGo acc (ch :: cs) = acc.reverse :: jsSplitGo [] (cs.dropWhile isWs)
      from by
        rw [jsSplitGo, if_pos hws]] at hw
    rcases List.mem_cons.mp hw with hw | hw
    · subst hw
      exact Or.inl (List.mem_reverse.mp hc)
    · rcases ih hw hc with h | h
      · exact absurd h (List.not_mem_nil c)
      · exact Or.inr (List.mem_cons_of_mem ch
          (List.Sublist.mem h (List.dropWhile_sublist isWs)))
  · intro acc ch cs hws ih hw hc
    rw [show jsSplitGo acc (ch :: cs) = jsSplitGo (ch :: acc) cs from by
      rw [jsSplitGo, if_neg hws]] at hw
    rcases ih hw hc with h | h
    · rcases List.mem_cons.mp h with h | h
      · exact Or.inr (h ▸ List.mem_cons_self ch cs)
      · exact Or.inl h
    · exact Or.inr (List.mem_cons_of_mem ch h)

/-- Every character of a field of `jsSplit` occurs in the split string. -/
theorem mem_jsSplit_chars {w : Str} {c : Char} {s : Str}
    (hw : w ∈ jsSplit s) (hc : c ∈ w) : c ∈ s := by
  rcases mem_jsSplitGo_chars [] s hw hc with h | h
  · exact absurd h (List.not_mem_nil c)
  · exact h

/-- Every character of a word of `splitWords` occurs in the split string. -/
theorem mem_splitWords_chars {w : Str} {c : Char} {s : Str}
    (hw : w ∈ splitWords s) (hc : c ∈ w) : c ∈ s :=
  mem_jsSplit_chars (List.mem_of_mem_filter hw) hc

/-- Words of the analysis word sequence contain no uppercase A–Z character. -/
theorem wordsAt_chars_not_upper {title metaDescription bodyText : Str} {w : Str}
    (hw : w ∈ wordsAt title metaDescription bodyText) :
    ∀ c ∈ w, ¬('A' ≤ c ∧ c ≤ 'Z') := by
  intro c hc
  exact mem_toLowerStr_not_upper (mem_splitWords_chars hw hc)

/-- Characters of a space-join come from the joined words or are a space. -/
theorem mem_joinWords {c : Char} : ∀ {ws : List Str}, c ∈ joinWords ws →
    c = ' ' ∨ ∃ w ∈ ws, c ∈ w := by
  intro ws
  induction ws with
  | nil =>
    intro h
    exact absurd h (List.not_mem_nil c)
  | cons w ws ih =>
    intro h
    cases ws with
    | nil =>
      exact Or.inr ⟨w, List.mem_singleton.mpr rfl, h⟩
    | cons v vs =>
      rw [show joinWords (w :: v :: vs) = w ++ ' ' :: joinWords (v :: vs) from rfl] at h
      rcases List.mem_append.mp h with h | h
      · exact Or.inr ⟨w, List.mem_cons_self _ _, h⟩
      · rcases List.mem_cons.mp h with h | h
        · exact Or.inl h
        · rcases ih h with h | ⟨u, hu, hc⟩
          · exact Or.inl h
          · exact Or.inr ⟨u, List.mem_cons_of_mem _ hu, hc⟩

/-- A space is not an uppercase letter either. -/
theorem space_not_upper : ¬('A' ≤ (' ' : Char) ∧ (' ' : Char) ≤ 'Z') := by
  decide

/-- The term of every unified candidate of one analysis call starts with a
non-uppercase character (all its characters are non-uppercase). -/
theorem allTermsAt_chars_not_upper {title metaDescription bodyText : Str}
    {rand : ℕ → Bool} {cand : Cand}
    (hc : cand ∈ allTermsOf (tokensAt title metaDescription bodyText rand)
      (ngramsAt title metaDescription bodyText rand)) :
    ∀ ch ∈ cand.term, ¬('A' ≤ ch ∧ ch ≤ 'Z') := by
  intro ch hch
  unfold allTermsOf at hc
  rcases List.mem_append.mp hc with hc | hc
  · obtain ⟨tok, htok, he⟩ := List.mem_map.mp hc
    obtain ⟨w, hw, hmk⟩ := mem_calculateTFIDF.mp htok
    have hword : tok.word = w := by
      rw [← hmk]
      rfl
    rw [← he] at hch
    simp only at hch
    rw [hword] at hch
    have hmemw : w ∈ wordsAt title metaDescription bodyText :=
      mem_filteredWords_sub (mem_dedupFirst.mp hw)
    exact wordsAt_chars_not_upper hmemw ch hch
  · obtain ⟨ng, hng, he⟩ := List.mem_map.mp hc
    rw [← he] at hch
    simp only at hch
    unfold ngramsAt extractNGrams at hng
    have hms := List.mem_of_mem_take hng
    rw [(List.mergeSort_perm _ _).mem_iff, List.mem_filter] at hms
    obtain ⟨hmem, -⟩ := hms
    have hgroup : ∃ group : List Str,
        (∀ w ∈ group, w ∈ (tokensAt title metaDescription bodyText rand).map Token.word) ∧
        mkNGram (tokensAt title metaDescription bodyText rand)
          (toLowerStr (combinedAt title metaDescription bodyText)) group = some ng := by
      rcases List.mem_append.mp hmem with hb | ht
      · obtain ⟨p, hp, hpe⟩ := List.mem_filterMap.mp hb
        refine ⟨[p.1, p.2], ?_, hpe⟩
        intro w hw
        have := List.of_mem_zip hp
        rcases List.mem_cons.mp hw with hw | hw
        · exact hw ▸ this.1
        · rcases List.mem_cons.mp hw with hw | hw
          · exact hw ▸ (List.mem_of_mem_tail this.2)
          · exact absurd hw (List.not_mem_nil w)
      · obtain ⟨p, hp, hpe⟩ := List.mem_filterMap.mp ht
        refine ⟨[p.1.1, p.1.2, p.2], ?_, hpe⟩
        intro w hw
        have h1 := List.of_mem_zip hp
        have h2 := List.of_mem_zip h1.1
        rcases List.mem_cons.mp hw with hw | hw
        · exact hw ▸ h2.1
        · rcases List.mem_cons.mp hw with hw | hw
          · exact hw ▸ (List.mem_of_mem_tail h2.2)
          · rcases List.mem_cons.mp hw with hw | hw
            · exact hw ▸ (List.mem_of_mem_tail (List.mem_of_mem_tail h1.2))
            · exact absurd hw (List.not_mem_nil w)
    obtain ⟨group, hgw, hsome⟩ := hgroup
    have hphrase : ng.phrase = joinWords group := by
      unfold mkNGram at hsome
      by_cases hf : countOcc (joinWords group)
          (toLowerStr (combinedAt title metaDescription bodyText)) > 0
      · rw [if_pos hf] at hsome
        cases hsome
        rfl
      · rw [if_neg hf] at hsome
        cases hsome
    rw [hphrase] at hch
    rcases mem_joinWords hch with h | ⟨w, hw, hcw⟩
    · exact h ▸ space_not_upper
    · obtain ⟨tok, htok, hwe⟩ := List.mem_map.mp (hgw w hw)
      obtain ⟨u, hu, hmk⟩ := mem_calculateTFIDF.mp htok
      have : w = u := by
        rw [← hwe, ← hmk]
        rfl
      subst this
      have hmemw : w ∈ wordsAt title metaDescription bodyText :=
        mem_filteredWords_sub (mem_dedupFirst.mp hu)
      exact wordsAt_chars_not_upper hmemw ch hcw

/-- Function `inferCategory` never returns "entity" for a term that does not start
with an uppercase A–Z character. -/
theorem inferCategoryTail_ne_entity {term : Str} {role : String} :
    inferCategoryTail term role ≠ "entity" := by
  unfold inferCategoryTail
  split_ifs <;> decide

theorem inferCategory_ne_entity {term : Str} {role : String} {allTerms : List Cand}
    (h : startsWithUpper term = false) :
    inferCategory term role allTerms ≠ "entity" := by
  unfold inferCategory
  split_ifs with h1 h2 h3
  · decide
  · rw [h] at h2
    exact absurd h2.1 (by simp)
  · by_cases h4 : (((allTerms.find? (fun t => t.term = term)).map Cand.score).getD 0 : ℝ) > 1/100
    · rw [if_pos h4]
      decide
    · rw [if_neg h4]
      exact inferCategoryTail_ne_entity
  · exact inferCategoryTail_ne_entity

/-- A string whose characters are all non-uppercase does not start with an
uppercase letter. -/
theorem startsWithUpper_eq_false {term : Str}
    (h : ∀ c ∈ term, ¬('A' ≤ c ∧ c ≤ 'Z')) : startsWithUpper term = false := by
  cases term with
  | nil => rfl
  | cons c rest =>
    have := h c (List.mem_cons_self _ _)
    unfold startsWithUpper
    rw [Bool.and_eq_false_iff]
    by_cases hA : 'A' ≤ c
    · right
      rw [decide_eq_false_iff_not]
      intro hZ
      exact this ⟨hA, hZ⟩
    · left
      rw [decide_eq_false_iff_not]
      exact hA

/-- Every cluster the greedy loop emits is categorised from a seed candidate
of the remaining candidate list. -/
theorem clusterLoop_category (tokens : List Token) (ngrams : List NGram)
    (allTerms : List Cand) (l : List Cand) : ∀ processed : List Str,
    ∀ c ∈ clusterLoop tokens ngrams allTerms l processed,
      ∃ t ∈ l, c.category = inferCategory t.term t.role allTerms := by
  induction l with
  | nil =>
    intro processed c hc
    simp [clusterLoop] at hc
  | cons t rest ih =>
    intro processed c hc
    rw [clusterLoop_cons] at hc
    by_cases hp : t.term ∈ processed
    · rw [if_pos hp] at hc
      obtain ⟨u, hu, he⟩ := ih processed c hc
      exact ⟨u, List.mem_cons_of_mem _ hu, he⟩
    · rw [if_neg hp] at hc
      rcases List.mem_cons.mp hc with hc | hc
      · exact ⟨t, List.mem_cons_self _ _, by rw [hc]⟩
      · obtain ⟨u, hu, he⟩ := ih _ c hc
        exact ⟨u, List.mem_cons_of_mem _ hu, he⟩

/-- No cluster of an analysis run is categorised "entity". -/
theorem clustersAt_ne_entity {title metaDescription bodyText : Str}
    {rand : ℕ → Bool} {c : SemanticCluster}
    (hc : c ∈ clustersAt title metaDescription bodyText rand) :
    c.category ≠ "entity" := by
  unfold clustersAt clusterSemantically at hc
  have hmem := List.mem_of_mem_take hc
  rw [(List.mergeSort_perm _ _).mem_iff] at hmem
  obtain ⟨t, ht, he⟩ := clusterLoop_category _ _ _ _ _ c hmem
  rw [he]
  exact inferCategory_ne_entity
    (startsWithUpper_eq_false (allTermsAt_chars_not_upper ht))

/-- With a zero navigational accumulator the classifier never returns
"navigational". -/
theorem specSelect_ne_navigational {s : QScores} (h : s.navigational = 0) :
    specSelectQueryType s ≠ "navigational" := by
  unfold specSelectQueryType
  split_ifs with h1 h2 h3
  · decide
  · decide
  · rw [h] at h3
    exact absurd h3.1 (by norm_num)
  · decide

/-- When no cluster is an entity cluster, the spec-side navigational
accumulator is zero. -/
theorem navigationalScoreSpec_eq_zero {clusters : List SemanticCluster}
    (h : ∀ c ∈ clusters, c.category ≠ "entity") :
    navigationalScoreSpec clusters = 0 := by
  unfold navigationalScoreSpec
  apply List.sum_eq_zero
  intro x hx
  obtain ⟨c, hc, he⟩ := List.mem_map.mp hx
  rw [← he, if_neg (h c hc)]

/-- C9: no cluster of any analysis run is assigned the category "entity",
and consequently the returned query type is never "navigational". -/
theorem claim_C9 (title metaDescription bodyText : Str) (lang : Option String)
    (rand : ℕ → Bool) :
    (∀ c ∈ clustersAt title metaDescription bodyText rand, c.category ≠ "entity") ∧
    (analyze title metaDescription bodyText lang rand).queryType ≠ "navigational" := by
  have hent : ∀ c ∈ clustersAt title metaDescription bodyText rand, c.category ≠ "entity" :=
    fun c hc => clustersAt_ne_entity hc
  refine ⟨hent, ?_⟩
  have hq : (analyze title metaDescription bodyText lang rand).queryType =
      classifyQueryTypeStatistically (clustersAt title metaDescription bodyText rand)
        (match lang with
          | some l =>
            { language := l, confidence := 1, avgWordLength := 0, vowelShare := 0
              consonantClusters := 0 }
          | none => detectLanguageStatistically
              (combinedAt title metaDescription bodyText)) := rfl
  rw [hq, classify_eq_specSelect]
  exact specSelect_ne_navigational (navigationalScoreSpec_eq_zero hent)

/-- A fixed random oracle (every `Math.random() > 0.7` draw fails). -/
def rand0 : ℕ → Bool := fun _ => false

/-- Title of the C9 witness input. -/
def c9title : Str := str "elephants"

/-- Body of the C9 witness input. -/
def c9body : Str := str "elephants elephants"

/-- The single cluster the C9 witness run yields. -/
noncomputable def c9cluster : SemanticCluster :=
  (clustersAt c9title (str "") c9body rand0).headD
    { centroid := [], members := [], coherenceScore := 0, category := "" }

theorem c9_eval : clustersAt c9title (str "") c9body rand0 = [c9cluster] := by
  with_unfolding_all rfl

/-- Witness for C9 at a concrete input. -/
theorem claim_C9_witness :
    c9cluster ∈ clustersAt c9title (str "") c9body rand0 ∧
    c9cluster.category ≠ "entity" ∧
    (analyze c9title (str "") c9body none rand0).queryType ≠ "navigational" := by
  have hmem : c9cluster ∈ clustersAt c9title (str "") c9body rand0 := by
    rw [c9_eval]
    exact List.mem_singleton.mpr rfl
  exact ⟨hmem, (claim_C9 c9title (str "") c9body none rand0).1 c9cluster hmem,
    (claim_C9 c9title (str "") c9body none rand0).2⟩

/-- Every token of the term weighter has a non-empty word (retained words
have length > 1). -/
theorem calculateTFIDF_word_ne_nil {words stopWords : List Str} {tok : Token}
    (h : tok ∈ calculateTFIDF words stopWords) : tok.word ≠ [] := by
  obtain ⟨w, hw, he⟩ := mem_calculateTFIDF.mp h
  have hlen := mem_filteredWords_length (mem_dedupFirst.mp hw)
  have hword : tok.word = w := by
    rw [← he]
    rfl
  rw [hword]
  intro hnil
  rw [hnil] at hlen
  simp at hlen

/-- The claim's selection rule, written with explicit first-match searches:
(1) first ranked phrase that is a substring of the lowercased title, (2) else
the top-ranked phrase, (3) else the first ranked token that is a substring of
the lowercased title, (4) else the top-ranked token, (5) else the lowercased
title itself. -/
def mainQuerySpecOf (ngrams : List NGram) (tokens : List Token) (lowerTitle : Str) : Str :=
  match ngrams.find? (fun ng => hasSub lowerTitle ng.phrase) with
  | some ng => ng.phrase
  | none =>
    match ngrams.head? with
    | some ng => ng.phrase
    | none =>
      match tokens.find? (fun t => hasSub lowerTitle t.word) with
      | some t => t.word
      | none =>
        match tokens.head? with
        | some t => t.word
        | none => lowerTitle

theorem selectMainQuery_eq_spec (ngrams : List NGram) (tokens : List Token) (lt : Str)
    (h : ∀ t ∈ tokens, t.word ≠ []) :
    selectMainQuery ngrams tokens lt = mainQuerySpecOf ngrams tokens lt := by
  unfold selectMainQuery mainQuerySpecOf
  rw [← List.filter_head? (fun ng => hasSub lt ng.phrase) ngrams]
  cases hf : ngrams.filter (fun ng => hasSub lt ng.phrase) with
  | cons tng rest => simp
  | nil =>
    simp only [List.head?_nil]
    cases ngrams with
    | cons ng rest2 => simp
    | nil =>
      simp only [List.head?_nil]
      rw [← List.filter_head? (fun t => hasSub lt t.word) tokens]
      cases hg : tokens.filter (fun t => hasSub lt t.word) with
      | cons tt rest3 => simp
      | nil =>
        simp only [List.head?_nil]
        cases tokens with
        | nil => simp
        | cons t rest4 =>
          simp only [List.head?_cons]
          have hne : t.word.isEmpty = false := by
            rw [List.isEmpty_eq_false]
            exact h t (List.mem_cons_self _ _)
          rw [hne]
          simp

/-- C1: the main query of every analysis run follows the five-step
title-anchored precedence over the ranked phrase and token lists. -/
theorem claim_C1 (title metaDescription bodyText : Str) (lang : Option String)
    (rand : ℕ → Bool) :
    (analyze title metaDescription bodyText lang rand).mainQuery =
      mainQuerySpecOf (ngramsAt title metaDescription bodyText rand)
        (tokensAt title metaDescription bodyText rand) (toLowerStr title) := by
  have hmq : (analyze title metaDescription bodyText lang rand).mainQuery =
      selectMainQuery (ngramsAt title metaDescription bodyText rand)
        (tokensAt title metaDescription bodyText rand) (toLowerStr title) := rfl
  rw [hmq]
  exact selectMainQuery_eq_spec _ _ _ (fun t ht => calculateTFIDF_word_ne_nil ht)

/-- C3 (amended): vocabulary richness divides the distinct retained token
count by the length of the RAW lowercased word sequence (not the filtered
one); it lies in [0, 1], and is strictly positive whenever at least one
token survives filtering. -/
theorem claim_C3 (title metaDescription bodyText : Str) (lang : Option String)
    (rand : ℕ → Bool) (h : wordsAt title metaDescription bodyText ≠ []) :
    (analyze title metaDescription bodyText lang rand).nlpMetrics.vocabularyRichness =
      ((tokensAt title metaDescription bodyText rand).length : ℚ) /
        ((wordsAt title metaDescription bodyText).length : ℚ) ∧
    0 ≤ (analyze title metaDescription bodyText lang rand).nlpMetrics.vocabularyRichness ∧
    (analyze title metaDescription bodyText lang rand).nlpMetrics.vocabularyRichness ≤ 1 ∧
    (tokensAt title metaDescription bodyText rand ≠ [] →
      0 < (analyze title metaDescription bodyText lang rand).nlpMetrics.vocabularyRichness) := by
  have hrich : (analyze title metaDescription bodyText lang rand).nlpMetrics.vocabularyRichness =
      ((tokensAt title metaDescription bodyText rand).length : ℚ) /
        ((wordsAt title metaDescription bodyText).length : ℚ) := rfl
  have hm : 0 < (wordsAt title metaDescription bodyText).length :=
    List.length_pos.mpr h
  have hnm : (tokensAt title metaDescription bodyText rand).length ≤
      (wordsAt title metaDescription bodyText).length := by
    unfold tokensAt
    rw [length_calculateTFIDF]
    calc (dedupFirst (filteredWords (wordsAt title metaDescription bodyText)
            (stopWordsAt title metaDescription bodyText rand))).length
        ≤ (filteredWords (wordsAt title metaDescription bodyText)
            (stopWordsAt title metaDescription bodyText rand)).length :=
          length_dedupFirst_le _
      _ ≤ (wordsAt title metaDescription bodyText).length := List.length_filter_le _ _
  have hmpos : (0 : ℚ) < ((wordsAt title metaDescription bodyText).length : ℚ) := by
    exact_mod_cast hm
  refine ⟨hrich, ?_, ?_, ?_⟩
  · rw [hrich]
    positivity
  · rw [hrich]
    rw [div_le_one hmpos]
    exact_mod_cast hnm
  · intro ht
    rw [hrich]
    apply div_pos _ hmpos
    have : 0 < (tokensAt title metaDescription bodyText rand).length :=
      List.length_pos.mpr ht
    exact_mod_cast this

/-- Counterexample to C3 as stated: on the input
(title "a", body "elephants elephants") the implementation divides by the
raw word count 3, yielding 1/3, while the claimed denominator (the filtered
sequence, length 2) would yield 1/2. -/
theorem claim_C3_counterexample :
    (analyze (str "a") (str "") (str "elephants elephants") none
      rand0).nlpMetrics.vocabularyRichness = 1/3 ∧
    (((tokensAt (str "a") (str "") (str "elephants elephants") rand0).length : ℚ) /
      ((filteredWords (wordsAt (str "a") (str "") (str "elephants elephants"))
        (stopWordsAt (str "a") (str "") (str "elephants elephants") rand0)).length : ℚ)) =
      1/2 ∧
    (1/3 : ℚ) ≠ 1/2 := by
  refine ⟨?_, ?_, by norm_num⟩
  · with_unfolding_all rfl
  · with_unfolding_all rfl

/-- Witness for the amended C3 at a concrete input. -/
theorem claim_C3_witness :
    wordsAt (str "a") (str "") (str "elephants elephants") ≠ [] ∧
    tokensAt (str "a") (str "") (str "elephants elephants") rand0 ≠ [] ∧
    ((analyze (str "a") (str "") (str "elephants elephants") none
        rand0).nlpMetrics.vocabularyRichness =
      ((tokensAt (str "a") (str "") (str "elephants elephants") rand0).length : ℚ) /
        ((wordsAt (str "a") (str "") (str "elephants elephants")).length : ℚ) ∧
      0 < (analyze (str "a") (str "") (str "elephants elephants") none
        rand0).nlpMetrics.vocabularyRichness) := by
  have hw : wordsAt (str "a") (str "") (str "elephants elephants") ≠ [] := by
    rw [show wordsAt (str "a") (str "") (str "elephants elephants") =
        [str "a", str "elephants", str "elephants"] from by
      with_unfolding_all rfl]
    exact List.cons_ne_nil _ _
  have ht : tokensAt (str "a") (str "") (str "elephants elephants") rand0 ≠ [] := by
    rw [show tokensAt (str "a") (str "") (str "elephants elephants") rand0 =
        [mkToken (filteredWords (wordsAt (str "a") (str "") (str "elephants elephants"))
          (stopWordsAt (str "a") (str "") (str "elephants elephants") rand0))
          (str "elephants")] from by
      with_unfolding_all rfl]
    exact List.cons_ne_nil _ _
  obtain ⟨h1, -, -, h4⟩ :=
    claim_C3 (str "a") (str "") (str "elephants elephants") none rand0 hw
  exact ⟨hw, ht, h1, h4 ht⟩

/-- C8: the stop-word induction step is the only consumer of the random
oracle — two runs whose induced stop-word sets coincide produce identical
analysis results. -/
theorem claim_C8 (title metaDescription bodyText : Str) (lang : Option String)
    (r1 r2 : ℕ → Bool)
    (h : stopWordsAt title metaDescription bodyText r1 =
      stopWordsAt title metaDescription bodyText r2) :
    analyze title metaDescription bodyText lang r1 =
      analyze title metaDescription bodyText lang r2 := by
  have ht : tokensAt title metaDescription bodyText r1 =
      tokensAt title metaDescription bodyText r2 := by
    unfold tokensAt
    rw [h]
  have hn : ngramsAt title metaDescription bodyText r1 =
      ngramsAt title metaDescription bodyText r2 := by
    unfold ngramsAt
    rw [ht]
  have hc : clustersAt title metaDescription bodyText r1 =
      clustersAt title metaDescription bodyText r2 := by
    unfold clustersAt
    rw [ht, hn]
  unfold analyze
  rw [ht, hn, hc, h]

/-- Title of the C8 witness input. -/
def c8title : Str := str "ab"

/-- Body of the C8 witness input. -/
def c8body : Str := str "cd cd"

/-- A second random oracle differing from `rand0` everywhere. -/
def rand1 : ℕ → Bool := fun _ => true

theorem c8_stopwords_eq :
    stopWordsAt c8title (str "") c8body rand1 =
      stopWordsAt c8title (str "") c8body rand0 := by
  with_unfolding_all rfl

/-- Witness for C8 at a concrete input: with fewer than 10 words the oracle
is never consulted, so two different oracles induce the same stop words and
the same analysis result. -/
theorem claim_C8_witness :
    stopWordsAt c8title (str "") c8body rand1 =
      stopWordsAt c8title (str "") c8body rand0 ∧
    analyze c8title (str "") c8body none rand1 =
      analyze c8title (str "") c8body none rand0 :=
  ⟨c8_stopwords_eq, claim_C8 c8title (str "") c8body none rand1 rand0 c8_stopwords_eq⟩

theorem extractQueryPureNLP_spec (args : ExtractArgs) (rand : ℕ → Bool) :
    (extractQueryPureNLP args rand = Except.error errRequired ↔
      ((trimStr args.title).isEmpty = true ∨ (trimStr args.bodyText).isEmpty = true)) ∧
    (¬((trimStr args.title).isEmpty = true ∨ (trimStr args.bodyText).isEmpty = true) →
      extractQueryPureNLP args rand =
        Except.ok (analyze args.title (args.metaDescription.getD []) args.bodyText
          args.language rand)) := by
  unfold extractQueryPureNLP
  by_cases hc : ((trimStr args.title).isEmpty = true ∨ (trimStr args.bodyText).isEmpty = true)
  · rw [if_pos hc]
    exact ⟨⟨fun _ => hc, fun _ => rfl⟩, fun hn => absurd hc hn⟩
  · rw [if_neg hc]
    refine ⟨⟨fun he => absurd he (by simp), fun hcc => absurd hcc hc⟩, fun _ => rfl⟩

/-- C7: the caller-facing boundary raises exactly when the trimmed title or
the trimmed body text is empty, and otherwise hands the unmodified inputs to
the (total) core analysis. -/
theorem claim_C7 (args : ExtractArgs) (rand : ℕ → Bool) :
    (extractQueryPureNLP args rand = Except.error errRequired ↔
      ((trimStr args.title).isEmpty = true ∨ (trimStr args.bodyText).isEmpty = true)) ∧
    (¬((trimStr args.title).isEmpty = true ∨ (trimStr args.bodyText).isEmpty = true) →
      extractQueryPureNLP args rand =
        Except.ok (analyze args.title (args.metaDescription.getD []) args.bodyText
          args.language rand)) :=
  extractQueryPureNLP_spec args rand

/-- Arguments of the C7 witness: both required fields non-blank. -/
def c7args : ExtractArgs :=
  { url := none, title := str "ab", metaDescription := none, bodyText := str "cd cd"
    language := none }

/-- Witness for C7 at a concrete input. -/
theorem claim_C7_witness :
    ¬((trimStr c7args.title).isEmpty = true ∨ (trimStr c7args.bodyText).isEmpty = true) ∧
    extractQueryPureNLP c7args rand0 =
      Except.ok (analyze c7args.title (c7args.metaDescription.getD []) c7args.bodyText
        c7args.language rand0) := by
  have hne : ¬((trimStr c7args.title).isEmpty = true ∨
      (trimStr c7args.bodyText).isEmpty = true) := by
    rw [show trimStr c7args.title = str "ab" from by with_unfolding_all rfl,
      show trimStr c7args.bodyText = str "cd cd" from by with_unfolding_all rfl]
    simp [str]
  exact ⟨hne, (claim_C7 c7args rand0).2 hne⟩

/-- Title of the C10 degenerate input. -/
def c10title : Str := str "a"

/-- Body of the C10 degenerate input: every word is induced as a stop word
("a" by the frequency rule, "hello" by the sentence-dispersion rule), so no
token survives. -/
def c10body : Str := str "hello hello"

/-- Arguments handing the C10 degenerate input to the boundary. -/
def c10args : ExtractArgs :=
  { url := none, title := c10title, metaDescription := none, bodyText := c10body
    language := none }

theorem c10_tokens_eval : tokensAt c10title (str "") c10body rand0 = [] := by
  with_unfolding_all rfl

theorem c10_clusters_eval : clustersAt c10title (str "") c10body rand0 = [] := by
  with_unfolding_all rfl

/-- C10: a non-blank input accepted by the boundary can still lose every word
to stop-word filtering; then `avgTfIdf` and `semanticCohesion` are the
unguarded divisions `0 / 0` (IEEE NaN in the implementation, the embedded
total division), while the call still returns a full result object whose main
query falls back to the lowercased title. -/
theorem claim_C10 :
    tokensAt c10title (str "") c10body rand0 = [] ∧
    clustersAt c10title (str "") c10body rand0 = [] ∧
    (analyze c10title (str "") c10body none rand0).nlpMetrics.avgTfIdf = (0 : ℝ)/(0 : ℝ) ∧
    (analyze c10title (str "") c10body none rand0).nlpMetrics.semanticCohesion =
      (0 : ℝ)/(0 : ℝ) ∧
    extractQueryPureNLP c10args rand0 =
      Except.ok (analyze c10title (str "") c10body none rand0) ∧
    (analyze c10title (str "") c10body none rand0).mainQuery = str "a" := by
  refine ⟨c10_tokens_eval, c10_clusters_eval, ?_, ?_, ?_, ?_⟩
  · have ha : (analyze c10title (str "") c10body none rand0).nlpMetrics.avgTfIdf =
        ((tokensAt c10title (str "") c10body rand0).map Token.tfIdf).sum /
          ((tokensAt c10title (str "") c10body rand0).length : ℝ) := rfl
    rw [ha, c10_tokens_eval]
    norm_num
  · have hs : (analyze c10title (str "") c10body none rand0).nlpMetrics.semanticCohesion =
        ((clustersAt c10title (str "") c10body rand0).map SemanticCluster.coherenceScore).sum /
          ((clustersAt c10title (str "") c10body rand0).length : ℝ) := rfl
    rw [hs, c10_clusters_eval]
    norm_num
  · have hne : ¬((trimStr c10title).isEmpty = true ∨ (trimStr c10body).isEmpty = true) := by
      rw [show trimStr c10title = str "a" from by with_unfolding_all rfl,
        show trimStr c10body = str "hello hello" from by with_unfolding_all rfl]
      simp [str]
    exact (extractQueryPureNLP_spec c10args rand0).2 hne
  · have hm : (analyze c10title (str "") c10body none rand0).mainQuery =
        selectMainQuery (ngramsAt c10title (str "") c10body rand0)
          (tokensAt c10title (str "") c10body rand0) (toLowerStr c10title) := rfl
    rw [hm]
    with_unfolding_all rfl
